import Mathlib

/-!
Shallow embedding of src/convolve.c (time-domain convolution reverb for mono
16-bit WAV files) and proofs about it.

Modelling conventions:
- C `float`/`double` values are modelled by exact rationals (`ℚ`); the literals
  0.000001, 0.999999, -9999999.0 and 9999999.0 become the corresponding exact
  rationals.  All properties settled here are structural/algorithmic and do not
  depend on IEEE rounding.
- C arrays are Lean lists; `y[i]` reads are `List.getD i 0` (out-of-range reads
  never occur on the paths proved in-bounds below), writes are `List.set`.
- The byte stream of a WAV file is a `List Nat` of byte values; `fread` of one
  byte at end-of-stream leaves the destination byte unchanged and the stream
  empty, exactly as C `fread` leaves the buffer untouched when it reads nothing.
-/

set_option maxHeartbeats 1000000

/-! ### ConvolutionEngine: `convolve` (src/convolve.c lines 286-310)

The C function zeroes `y[0..P-1]` and then runs
`for n in [0,N): for m in [0,M): y[n+m] += x[n]*h[m]`,
and finally calls `scaleValuesToRangeOfPlusMinus1`.
The inner loop is embedded structurally: `innerLoop c hs i y` walks the
remaining impulse samples `hs` with write index `i = n + m`. -/

/-- Inner accumulation loop of `convolve`: for each impulse sample `b` at
offset `m`, performs `y[n+m] += x[n]*b`; here `c = x[n]` and `i = n+m`. -/
def innerLoop (c : ℚ) : List ℚ → Nat → List ℚ → List ℚ
  | [], _, y => y
  | b :: hs, i, y => innerLoop c hs (i + 1) (y.set i (y.getD i 0 + c * b))

/-- Outer loop of `convolve`: walks the audio samples `x`, at position `n`,
running the inner loop for the current sample. -/
def outerLoop (h : List ℚ) : List ℚ → Nat → List ℚ → List ℚ
  | [], _, y => y
  | c :: xs, n, y => outerLoop h xs (n + 1) (innerLoop c h n y)

/-- The accumulation part of `convolve` (before the renormalization call):
output buffer of length `P = N + M - 1` (allocated and zeroed as in
`createOutputFile` line 148-150 and the zeroing loop at lines 293-294),
then the two nested accumulation loops. -/
def convolveRaw (x h : List ℚ) : List ℚ :=
  outerLoop h x 0 (List.replicate (x.length + h.length - 1) 0)

/-! ### Renormalizer (src/convolve.c lines 326-374) -/

/-- One step of the max/min tracking loop of `largestSampleIn`:
`if (y[p] > highest) highest = y[p]; else if (y[p] < lowest) lowest = y[p];` -/
def highLowStep (hl : ℚ × ℚ) (v : ℚ) : ℚ × ℚ :=
  if v > hl.1 then (v, hl.2) else if v < hl.2 then (hl.1, v) else hl

/-- `largestSampleIn` (lines 347-374): tracks `highest`/`lowest` starting from
the sentinels -9999999.0 / 9999999.0, then returns
`highest > fabs(lowest) ? highest + 0.000001 : fabs(lowest)`. -/
def largestSampleIn (y : List ℚ) : ℚ :=
  let hl := y.foldl highLowStep (-9999999, 9999999)
  if hl.1 > |hl.2| then hl.1 + 1 / 1000000 else |hl.2|

/-- `scaleValuesToRangeOfPlusMinus1` (lines 326-342): divides every sample by
`largestSampleIn y` and then decrements any quotient `> 0.999999` by
`0.000001`. -/
def scaleValuesToRangeOfPlusMinus1 (y : List ℚ) : List ℚ :=
  let largest := largestSampleIn y
  y.map (fun v =>
    let w := v / largest
    if w > 999999 / 1000000 then w - 1 / 1000000 else w)

/-- The full `convolve` as the C source has it: accumulation followed by the
mandatory `scaleValuesToRangeOfPlusMinus1` call (line 309). -/
def convolve (x h : List ℚ) : List ℚ :=
  scaleValuesToRangeOfPlusMinus1 (convolveRaw x h)

/-! ### SampleCodec (src/convolve.c lines 245-259) -/

/-- Scalar form of `createFloatSamplesFromIntegerSamples` (line 248):
`(samples[i] * 1.0) / 32768.0`.  Exact in IEEE arithmetic since every
16-bit integer divided by 2^15 is representable. -/
def toFloat (s : ℤ) : ℚ :=
  (s : ℚ) / 32768

/-- Truncation toward zero, the C semantics of a float-to-integer cast. -/
def truncTowardZero (q : ℚ) : ℤ :=
  if 0 ≤ q then ⌊q⌋ else ⌈q⌉

/-- Scalar form of `createShortIntegerSamplesFromFloatSamples` (line 258):
`(short)(floatSamples[i] * 32768.0)`, i.e. multiply and truncate toward zero
(all values round-tripped below are in the representable range of `short`,
so the narrowing itself is the identity). -/
def toInt (f : ℚ) : ℤ :=
  truncTowardZero (f * 32768)

/-- `createFloatSamplesFromIntegerSamples` (lines 245-249). -/
def createFloatSamplesFromIntegerSamples (l : List ℤ) : List ℚ :=
  l.map toFloat

/-- `createShortIntegerSamplesFromFloatSamples` (lines 255-259). -/
def createShortIntegerSamplesFromFloatSamples (l : List ℚ) : List ℤ :=
  l.map toInt

/-! ### ChunkLocator (src/convolve.c lines 197-239)

`readInputFileHeaders` reads the fixed header, skips declared extra bytes
(`skipPastNullBytesInInputFileHeadersIfPresent`), reads a 4-byte window into
`subchunk2_id`, and `ensureSubchunk2_idIsSetProperly` then scans byte by byte
until the window equals "data" = [100, 97, 116, 97]. -/

/-- The 4-byte `subchunk2_id` window of the C `WavHeader` struct. -/
structure SubchunkId where
  b0 : Nat
  b1 : Nat
  b2 : Nat
  b3 : Nat
deriving DecidableEq, Repr

/-- The 4 bytes of the window, in stream order. -/
def windowBytes (w : SubchunkId) : List Nat :=
  [w.b0, w.b1, w.b2, w.b3]

/-- The ASCII bytes of the data-chunk tag "data". -/
def dataTag : SubchunkId :=
  ⟨100, 97, 116, 97⟩

/-- The data-chunk tag as a byte list. -/
def tagBytes : List Nat :=
  [100, 97, 116, 97]

/-- `fread(&c, 1, 1, f)` on a byte stream: at end-of-stream the destination
byte `cur` is left unchanged (C `fread` reads nothing into the buffer). -/
def readByte (cur : Nat) (s : List Nat) : Nat × List Nat :=
  match s with
  | [] => (cur, [])
  | b :: r => (b, r)

/-- One iteration of the scanning `while` loop body (lines 225-229): the
`for (i = 0..3)` loop reads a byte into `subchunk2_id[i]` and breaks on the
first position that does not match "data"[i]. -/
def onePass (w : SubchunkId) (s : List Nat) : SubchunkId × List Nat :=
  let r0 := readByte w.b0 s
  let w0 : SubchunkId := { w with b0 := r0.1 }
  if r0.1 ≠ 100 then (w0, r0.2) else
  let r1 := readByte w0.b1 r0.2
  let w1 : SubchunkId := { w0 with b1 := r1.1 }
  if r1.1 ≠ 97 then (w1, r1.2) else
  let r2 := readByte w1.b2 r1.2
  let w2 : SubchunkId := { w1 with b2 := r2.1 }
  if r2.1 ≠ 116 then (w2, r2.2) else
  let r3 := readByte w2.b3 r2.2
  ({ w2 with b3 := r3.1 }, r3.2)

/-- Outcome of the scanning loop: either the tag was matched and the stream is
positioned right after it, or the loop reached a state it can never leave
(at end-of-stream every `fread` is a no-op, so the loop spins forever). -/
inductive ScanOutcome where
  | found (rest : List Nat)
  | hang (w : SubchunkId)
deriving DecidableEq, Repr

/-- Fueled form of the scanning `while` loop.  Each iteration with a non-empty
stream consumes at least one byte, so `s.length` iterations always suffice to
reach either a match or the end-of-stream fixpoint; the `hang` constructor
records that at end-of-stream with a non-matching window the loop body changes
nothing (see `onePass` on `[]`) and therefore never terminates. -/
def scanIter : Nat → SubchunkId → List Nat → ScanOutcome
  | 0, w, s => if w = dataTag then .found s else .hang w
  | fuel + 1, w, s =>
      if w = dataTag then .found s
      else
        match s with
        | [] => .hang w
        | _ :: _ => scanIter fuel (onePass w s).1 (onePass w s).2

/-- `ensureSubchunk2_idIsSetProperly` (lines 221-239) for one file: scan the
stream starting from the preloaded 4-byte window `w`. -/
def ensureSubchunk2_idIsSetProperly (w : SubchunkId) (s : List Nat) : ScanOutcome :=
  scanIter s.length w s

/-- `skipPastNullBytesInInputFileHeadersIfPresent` (lines 197-207) for one
file: if the declared `subchunk1_size` is not 16, seek forward by
`subchunk1_size - 16` bytes.  (Modelled for `subchunk1Size ≥ 16`; the C `int`
arithmetic would seek backwards for smaller values, which no claim touches.) -/
def skipPastNullBytesInInputFileHeadersIfPresent (subchunk1Size : Nat) (s : List Nat) : List Nat :=
  if subchunk1Size ≠ 16 then s.drop (subchunk1Size - 16) else s

/-! ### ContainerWriter (src/convolve.c lines 262-273) -/

/-- The C `WavHeader` struct (lines 27-47).  The 4-byte character arrays are
byte lists; the integer fields are mathematical integers (no field here can
overflow on the paths the claims touch). -/
structure WavHeader where
  chunk_id : List Nat
  chunk_size : ℤ
  format : List Nat
  subchunk1_id : List Nat
  subchunk1_size : ℤ
  audio_format : ℤ
  num_channels : ℤ
  sample_rate : ℤ
  byte_rate : ℤ
  block_align : ℤ
  bits_per_sample : ℤ
  subchunk2_id : List Nat
  subchunk2_size : ℤ
deriving DecidableEq, Repr

/-- Header-assembly part of `writeOutputFile` (lines 264-268): copy the sample
file header, force `subchunk1_size := 16`, set `subchunk2_size := P * 2` and
`chunk_size := 36 + subchunk2_size`. -/
def writeOutputHeader (hs : WavHeader) (P : ℤ) : WavHeader :=
  { hs with
    subchunk1_size := 16
    subchunk2_size := P * 2
    chunk_size := 36 + P * 2 }

/-! ### Bounds-checked convolution loops (for the in-bounds claim)

The same loops as `convolveRaw`, but every access to the output buffer is
guarded: an out-of-range index aborts with `none`.  Proving these equal to the
unchecked loops shows every buffer access of the C loops is in bounds. -/

/-- The zeroing loop `for (p = 0; p < P; p++) y[p] = 0.0;` (lines 293-294),
with a bounds check on every write; `k` writes remain, next index `i`. -/
def zeroFillChecked : Nat → Nat → List ℚ → Option (List ℚ)
  | 0, _, y => some y
  | k + 1, i, y =>
      if i < y.length then zeroFillChecked k (i + 1) (y.set i 0) else none

/-- `innerLoop` with a bounds check on every read/write of the output buffer. -/
def innerLoopChecked (c : ℚ) : List ℚ → Nat → List ℚ → Option (List ℚ)
  | [], _, y => some y
  | b :: hs, i, y =>
      if i < y.length then innerLoopChecked c hs (i + 1) (y.set i (y.getD i 0 + c * b))
      else none

/-- `outerLoop` with a bounds check on every access of the output buffer. -/
def outerLoopChecked (h : List ℚ) : List ℚ → Nat → List ℚ → Option (List ℚ)
  | [], _, y => some y
  | c :: xs, n, y =>
      match innerLoopChecked c h n y with
      | none => none
      | some y2 => outerLoopChecked h xs (n + 1) y2

/-- `convolveRaw` with every output-buffer access bounds-checked, including
the zeroing loop over indices `0..P-1` of the freshly allocated buffer. -/
def convolveChecked (x h : List ℚ) : Option (List ℚ) :=
  match zeroFillChecked (x.length + h.length - 1) 0
      (List.replicate (x.length + h.length - 1) 0) with
  | none => none
  | some y0 => outerLoopChecked h x 0 y0

/-! ### Helper lemmas about `List.getD` and `List.set` -/

/-- Setting index `i` then reading index `i` gives the written value. -/
theorem getD_set_self (l : List ℚ) (i : Nat) (a : ℚ) (h : i < l.length) :
    (l.set i a).getD i 0 = a := by
  simp [List.getD_eq_getElem?_getD, List.getElem?_set_self, h]

/-- Setting index `i` does not change reads at `j ≠ i`. -/
theorem getD_set_ne (l : List ℚ) (i j : Nat) (a : ℚ) (h : i ≠ j) :
    (l.set i a).getD j 0 = l.getD j 0 := by
  simp [List.getD_eq_getElem?_getD, List.getElem?_set_ne h]

/-- Reading inside a replicate of zeros gives zero. -/
theorem getD_replicate_zero (n i : Nat) : (List.replicate n (0 : ℚ)).getD i 0 = 0 := by
  by_cases h : i < n
  · simp [List.getD_eq_getElem?_getD, List.getElem?_replicate, h]
  · simp [List.getD_eq_getElem?_getD, List.getElem?_replicate, h]

/-! ### Helper lemmas: the convolution loops -/

/-- The inner loop never changes the output buffer length. -/
theorem innerLoop_length (c : ℚ) (hs : List ℚ) : ∀ (i : Nat) (y : List ℚ),
    (innerLoop c hs i y).length = y.length := by
  induction hs with
  | nil => intro i y; rfl
  | cons b hs ih =>
      intro i y
      rw [innerLoop, ih, List.length_set]

/-- The outer loop never changes the output buffer length. -/
theorem outerLoop_length (h : List ℚ) (xs : List ℚ) : ∀ (n : Nat) (y : List ℚ),
    (outerLoop h xs n y).length = y.length := by
  induction xs with
  | nil => intro n y; rfl
  | cons c xs ih =>
      intro n y
      rw [outerLoop, ih, innerLoop_length]

/-- Effect of one whole inner loop on a single buffer cell: cell `k` gains
`c * hs[k - i]` exactly when some write `i + m` with `m < hs.length` hits it. -/
theorem innerLoop_getD (c : ℚ) (hs : List ℚ) : ∀ (i k : Nat) (y : List ℚ), k < y.length →
    (innerLoop c hs i y).getD k 0 =
      y.getD k 0 + (if i ≤ k ∧ k - i < hs.length then c * hs.getD (k - i) 0 else 0) := by
  induction hs with
  | nil =>
      intro i k y _
      rw [innerLoop, if_neg]
      · ring
      · rintro ⟨_, h2⟩
        simp at h2
  | cons b hs ih =>
      intro i k y hk
      rw [innerLoop, ih (i + 1) k _ (by rw [List.length_set]; exact hk)]
      by_cases hki : k = i
      · subst hki
        rw [getD_set_self y k _ hk]
        rw [if_neg (by omega)]
        rw [if_pos ⟨le_refl k, by simp⟩]
        simp
      · rw [getD_set_ne y i k _ (fun e => hki e.symm)]
        simp only [List.length_cons]
        by_cases hA : i + 1 ≤ k ∧ k - (i + 1) < hs.length
        · rw [if_pos hA, if_pos (by omega : i ≤ k ∧ k - i < hs.length + 1)]
          have e : k - i = (k - (i + 1)) + 1 := by omega
          rw [e, List.getD_cons_succ]
        · rw [if_neg hA, if_neg (by omega)]

/-- Effect of the whole outer loop on one buffer cell `k`: the sum over all
audio samples of the contributions the inner loops add to it. -/
theorem outerLoop_getD (h : List ℚ) (xs : List ℚ) : ∀ (n k : Nat) (y : List ℚ), k < y.length →
    (outerLoop h xs n y).getD k 0 =
      y.getD k 0 + ∑ j ∈ Finset.range xs.length,
        (if n + j ≤ k ∧ k - (n + j) < h.length then xs.getD j 0 * h.getD (k - (n + j)) 0 else 0) := by
  induction xs with
  | nil => intro n k y _; simp [outerLoop]
  | cons c xs ih =>
      intro n k y hk
      rw [outerLoop, ih (n + 1) k _ (by rw [innerLoop_length]; exact hk)]
      rw [innerLoop_getD c h n k y hk]
      rw [List.length_cons, Finset.sum_range_succ']
      have hsum : ∑ j ∈ Finset.range xs.length,
            (if n + (j + 1) ≤ k ∧ k - (n + (j + 1)) < h.length
              then (c :: xs).getD (j + 1) 0 * h.getD (k - (n + (j + 1))) 0 else 0)
          = ∑ j ∈ Finset.range xs.length,
            (if (n + 1) + j ≤ k ∧ k - ((n + 1) + j) < h.length
              then xs.getD j 0 * h.getD (k - ((n + 1) + j)) 0 else 0) := by
        apply Finset.sum_congr rfl
        intro j _
        have e : n + (j + 1) = (n + 1) + j := by omega
        rw [List.getD_cons_succ, e]
      rw [hsum]
      simp only [Nat.add_zero, List.getD_cons_zero]
      ring

/-- `convolveRaw` produces a buffer of length `N + M - 1`. -/
theorem convolveRaw_length (x h : List ℚ) :
    (convolveRaw x h).length = x.length + h.length - 1 := by
  rw [convolveRaw, outerLoop_length, List.length_replicate]

/-- Cell `p` of `convolveRaw x h` is the textbook convolution sum restricted
to valid indices. -/
theorem convolveRaw_getD (x h : List ℚ) (p : Nat) (hp : p < x.length + h.length - 1) :
    (convolveRaw x h).getD p 0 =
      ∑ n ∈ Finset.range x.length,
        (if n ≤ p ∧ p - n < h.length then x.getD n 0 * h.getD (p - n) 0 else 0) := by
  rw [convolveRaw, outerLoop_getD h x 0 p _ (by rw [List.length_replicate]; exact hp)]
  rw [getD_replicate_zero, zero_add]
  apply Finset.sum_congr rfl
  intro n _
  rw [Nat.zero_add]

/-- The guarded convolution sum equals the unguarded sum over `0..p`, because
out-of-range reads of `x` and `h` yield the default `0`. -/
theorem condSum_eq_plainSum (x h : List ℚ) (p : Nat) :
    (∑ n ∈ Finset.range x.length,
        (if n ≤ p ∧ p - n < h.length then x.getD n 0 * h.getD (p - n) 0 else 0))
      = ∑ n ∈ Finset.range (p + 1), x.getD n 0 * h.getD (p - n) 0 := by
  have h1 : (∑ n ∈ Finset.range x.length,
        (if n ≤ p ∧ p - n < h.length then x.getD n 0 * h.getD (p - n) 0 else 0))
      = ∑ n ∈ Finset.range (x.length + (p + 1)),
        (if n ≤ p ∧ p - n < h.length then x.getD n 0 * h.getD (p - n) 0 else 0) := by
    apply Finset.sum_subset
    · exact Finset.range_subset.mpr (by omega)
    · intro n _ hn
      have hxlen : x.length ≤ n := by
        simp only [Finset.mem_range] at hn
        omega
      have hx0 : x.getD n 0 = 0 := List.getD_eq_default _ _ hxlen
      rw [hx0, zero_mul, ite_self]
  have h2 : (∑ n ∈ Finset.range (x.length + (p + 1)),
        (if n ≤ p ∧ p - n < h.length then x.getD n 0 * h.getD (p - n) 0 else 0))
      = ∑ n ∈ Finset.range (x.length + (p + 1)),
        (if n ≤ p then x.getD n 0 * h.getD (p - n) 0 else 0) := by
    apply Finset.sum_congr rfl
    intro n _
    by_cases hnp : n ≤ p
    · by_cases hm : p - n < h.length
      · rw [if_pos ⟨hnp, hm⟩, if_pos hnp]
      · rw [if_neg (fun hc => hm hc.2), if_pos hnp]
        have hh0 : h.getD (p - n) 0 = 0 := List.getD_eq_default _ _ (by omega)
        rw [hh0, mul_zero]
    · rw [if_neg (fun hc => hnp hc.1), if_neg hnp]
  have h3 : (∑ n ∈ Finset.range (x.length + (p + 1)),
        (if n ≤ p then x.getD n 0 * h.getD (p - n) 0 else 0))
      = ∑ n ∈ Finset.range (p + 1),
        (if n ≤ p then x.getD n 0 * h.getD (p - n) 0 else 0) := by
    symm
    apply Finset.sum_subset
    · exact Finset.range_subset.mpr (by omega)
    · intro n _ hn
      have : ¬ n ≤ p := by
        simp only [Finset.mem_range] at hn
        omega
      rw [if_neg this]
  rw [h1, h2, h3]
  apply Finset.sum_congr rfl
  intro n hn
  rw [if_pos (by simp only [Finset.mem_range] at hn; omega)]

/-- Cell `p` of `convolveRaw x h` as a plain sum over `0..p`. -/
theorem convolveRaw_getD_sum (x h : List ℚ) (p : Nat) (hp : p < x.length + h.length - 1) :
    (convolveRaw x h).getD p 0 = ∑ n ∈ Finset.range (p + 1), x.getD n 0 * h.getD (p - n) 0 := by
  rw [convolveRaw_getD x h p hp, condSum_eq_plainSum]

/-- The plain convolution sum is symmetric in the two signals. -/
theorem plainSum_comm (x h : List ℚ) (i : Nat) :
    ∑ n ∈ Finset.range (i + 1), x.getD n 0 * h.getD (i - n) 0
      = ∑ n ∈ Finset.range (i + 1), h.getD n 0 * x.getD (i - n) 0 := by
  rw [← Finset.sum_range_reflect (fun j => h.getD j 0 * x.getD (i - j) 0) (i + 1)]
  apply Finset.sum_congr rfl
  intro j hj
  have hji : j ≤ i := by
    simp only [Finset.mem_range] at hj
    omega
  simp only [Nat.add_sub_cancel]
  rw [Nat.sub_sub_self hji]
  ring

/-- The raw (pre-renormalization) convolution is commutative. -/
theorem convolveRaw_comm (x h : List ℚ) : convolveRaw x h = convolveRaw h x := by
  apply List.ext_getElem
  · rw [convolveRaw_length, convolveRaw_length]
    omega
  · intro i h1 h2
    have hi : i < x.length + h.length - 1 := by rwa [convolveRaw_length] at h1
    have hi2 : i < h.length + x.length - 1 := by omega
    rw [← List.getD_eq_getElem _ 0 h1, ← List.getD_eq_getElem _ 0 h2]
    rw [convolveRaw_getD_sum x h i hi, convolveRaw_getD_sum h x i hi2]
    exact plainSum_comm x h i

/-! ### Helper lemmas: the bounds-checked loops -/

/-- Writing a zero into a buffer of zeros changes nothing. -/
theorem set_zero_replicate : ∀ (P i : Nat), (List.replicate P (0 : ℚ)).set i 0 = List.replicate P 0
  | 0, _ => rfl
  | P + 1, 0 => by simp [List.replicate_succ]
  | P + 1, i + 1 => by
      rw [List.replicate_succ, List.set_cons_succ, set_zero_replicate P i, ← List.replicate_succ]

/-- The checked zeroing loop succeeds on a buffer of zeros when all `k`
remaining writes starting at index `i` stay below the length. -/
theorem zeroFillChecked_replicate : ∀ (k i P : Nat), i + k ≤ P →
    zeroFillChecked k i (List.replicate P 0) = some (List.replicate P 0) := by
  intro k
  induction k with
  | zero => intro i P _; rfl
  | succ k ih =>
      intro i P hip
      simp only [zeroFillChecked]
      rw [if_pos (by rw [List.length_replicate]; omega)]
      rw [set_zero_replicate]
      exact ih (i + 1) P (by omega)

/-- The checked inner loop agrees with the unchecked one when all its writes
are below the buffer length. -/
theorem innerLoopChecked_eq (c : ℚ) (hs : List ℚ) : ∀ (i : Nat) (y : List ℚ),
    i + hs.length ≤ y.length →
    innerLoopChecked c hs i y = some (innerLoop c hs i y) := by
  induction hs with
  | nil => intro i y _; rfl
  | cons b hs ih =>
      intro i y hlen
      simp only [List.length_cons] at hlen
      simp only [innerLoopChecked, innerLoop]
      rw [if_pos (by omega)]
      exact ih (i + 1) _ (by rw [List.length_set]; omega)

/-- The checked outer loop agrees with the unchecked one when every inner
loop it launches stays below the buffer length. -/
theorem outerLoopChecked_eq (h : List ℚ) (xs : List ℚ) : ∀ (n : Nat) (y : List ℚ),
    n + xs.length + h.length ≤ y.length + 1 →
    outerLoopChecked h xs n y = some (outerLoop h xs n y) := by
  induction xs with
  | nil => intro n y _; rfl
  | cons c xs ih =>
      intro n y hlen
      simp only [List.length_cons] at hlen
      simp only [outerLoopChecked, outerLoop]
      rw [innerLoopChecked_eq c h n y (by omega)]
      exact ih (n + 1) _ (by rw [innerLoop_length]; omega)

/-! ### Helper lemmas: the tag scanner -/

/-- At end-of-stream one pass of the scanning loop is a no-op: every `fread`
leaves the window byte unchanged, so the loop state is a fixpoint. -/
theorem onePass_nil (w : SubchunkId) : onePass w [] = (w, []) := by
  cases w with
  | mk a b c d =>
      by_cases h0 : a = 100 <;> by_cases h1 : b = 97 <;> by_cases h2 : c = 116 <;>
        by_cases h3 : d = 97 <;> simp [onePass, readByte, h0, h1, h2, h3]

/-- If the window already holds the tag, the scan stops at once and the stream
position is untouched. -/
theorem scanIter_dataTag (fuel : Nat) (s : List Nat) : scanIter fuel dataTag s = .found s := by
  cases fuel <;> simp [scanIter]

/-- A pass whose first byte mismatches the tag consumes exactly that byte. -/
theorem onePass_mismatch (w : SubchunkId) (b : Nat) (s : List Nat) (hb : b ≠ 100) :
    onePass w (b :: s) = ({ w with b0 := b }, s) := by
  simp [onePass, readByte, hb]

/-- A pass that starts exactly at a tag occurrence consumes it whole and sets
the window to the tag. -/
theorem onePass_tag (w : SubchunkId) (rest : List Nat) :
    onePass w (100 :: 97 :: 116 :: 97 :: rest) = (dataTag, rest) := by
  cases w with
  | mk a b c d => simp [onePass, readByte, dataTag]

/-- Unfolding one iteration of the scanning loop on a non-empty stream. -/
theorem scanIter_succ_cons (fuel : Nat) (w : SubchunkId) (b : Nat) (s : List Nat)
    (hw : w ≠ dataTag) :
    scanIter (fuel + 1) w (b :: s) = scanIter fuel (onePass w (b :: s)).1 (onePass w (b :: s)).2 := by
  simp [scanIter, hw]

/-- At end-of-stream with a non-matching window the scan is hung, for any
amount of fuel: the loop body cannot change the state (see `onePass_nil`). -/
theorem scanIter_nil (fuel : Nat) (w : SubchunkId) (hw : w ≠ dataTag) :
    scanIter fuel w [] = .hang w := by
  cases fuel <;> simp [scanIter, hw]

/-- The scan finds a tag occurrence that is preceded only by bytes differing
from the first tag byte: each such byte is consumed alone, so the scanner
arrives aligned at the occurrence. -/
theorem scanIter_finds (junk : List Nat) : ∀ (fuel : Nat) (w : SubchunkId) (rest : List Nat),
    w ≠ dataTag → (∀ b ∈ junk, b ≠ 100) → junk.length + 1 ≤ fuel →
    scanIter fuel w (junk ++ tagBytes ++ rest) = .found rest := by
  induction junk with
  | nil =>
      intro fuel w rest hw _ hfuel
      obtain ⟨f, rfl⟩ : ∃ f, fuel = f + 1 := ⟨fuel - 1, by omega⟩
      have e : ([] : List Nat) ++ tagBytes ++ rest = 100 :: 97 :: 116 :: 97 :: rest := rfl
      rw [e, scanIter_succ_cons f w 100 (97 :: 116 :: 97 :: rest) hw, onePass_tag]
      exact scanIter_dataTag f rest
  | cons b junk ih =>
      intro fuel w rest hw hj hfuel
      obtain ⟨f, rfl⟩ : ∃ f, fuel = f + 1 := ⟨fuel - 1, by omega⟩
      have hb : b ≠ 100 := hj b (by simp)
      have e : (b :: junk) ++ tagBytes ++ rest = b :: (junk ++ tagBytes ++ rest) := rfl
      rw [e, scanIter_succ_cons f w b _ hw, onePass_mismatch w b _ hb]
      apply ih
      · intro he
        apply hb
        have hb0 := congrArg SubchunkId.b0 he
        simpa using hb0
      · intro b2 hb2
        exact hj b2 (by simp [hb2])
      · simp only [List.length_cons] at hfuel
        omega

/-- Round-trip of the scalar codec: dividing a 16-bit integer sample by 32768
and multiplying back is exact, and truncation toward zero of an integer is the
identity. -/
theorem toInt_toFloat (s : ℤ) : toInt (toFloat s) = s := by
  unfold toInt toFloat truncTowardZero
  have e : (s : ℚ) / 32768 * 32768 = (s : ℚ) := by
    rw [div_mul_cancel₀]
    norm_num
  rw [e]
  by_cases hs : (0 : ℚ) ≤ (s : ℚ)
  · rw [if_pos hs, Int.floor_intCast]
  · rw [if_neg hs, Int.ceil_intCast]

/-! ### Claim theorems -/

/-- C1: for all float sequences x of length N ≥ 1 and h of length M ≥ 1, the
accumulation part of convolve (before renormalization) returns a sequence of
length exactly N + M - 1 whose element at every index p equals the sum of
x[n] * h[p - n] over all valid n. -/
theorem c1_convolve_length_and_elements (x h : List ℚ) (N M p : Nat)
    (hx : x.length = N) (hh : h.length = M) (hN : 1 ≤ N) (hM : 1 ≤ M)
    (hp : p < N + M - 1) :
    (convolveRaw x h).length = N + M - 1 ∧
    (convolveRaw x h).getD p 0 =
      ∑ n ∈ Finset.range N,
        (if n ≤ p ∧ p - n < M then x.getD n 0 * h.getD (p - n) 0 else 0) := by
  subst hx
  subst hh
  exact ⟨convolveRaw_length x h, convolveRaw_getD x h p hp⟩

/-- C1 witness: the theorem applied at x = [1, 2], h = [3], p = 1. -/
theorem c1_witness :
    (([(1 : ℚ), 2].length = 2 ∧ [(3 : ℚ)].length = 1 ∧ 1 ≤ 2 ∧ 1 ≤ 1 ∧ 1 < 2 + 1 - 1) ∧
      ((convolveRaw [(1 : ℚ), 2] [(3 : ℚ)]).length = 2 + 1 - 1 ∧
        (convolveRaw [(1 : ℚ), 2] [(3 : ℚ)]).getD 1 0 =
          ∑ n ∈ Finset.range 2,
            (if n ≤ 1 ∧ 1 - n < 1 then [(1 : ℚ), 2].getD n 0 * [(3 : ℚ)].getD (1 - n) 0 else 0))) :=
  ⟨⟨rfl, rfl, by omega, by omega, by omega⟩,
    c1_convolve_length_and_elements [(1 : ℚ), 2] [(3 : ℚ)] 2 1 1 rfl rfl
      (by omega) (by omega) (by omega)⟩

/-- C2: the claim says every renormalized output sample lies in [-1.0, 1.0).
The code violates it: on the convolve input x = [-1/2, -1/10, -1/5], h = [1]
(a concrete non-empty input pair), the first sample of the returned (and
renormalized) result is -5/2, which is far below -1.0.  The cause is the
`else if` in `largestSampleIn`: a sample that updates `highest` is never
considered for `lowest`, so the scale can be smaller than the peak
magnitude. -/
theorem c2_renormalized_sample_below_minus_one :
    (convolve [-(1 : ℚ)/2, -1/10, -1/5] [1]).getD 0 0 = -(5 : ℚ)/2 ∧
    ¬ (-(1 : ℚ) ≤ -(5 : ℚ)/2) := by
  constructor
  · norm_num [convolve, convolveRaw, outerLoop, innerLoop, List.set,
      scaleValuesToRangeOfPlusMinus1, largestSampleIn, highLowStep, List.foldl, abs, List.getD]
  · norm_num

/-- C3: the claim says the renormalizer computes peak = max(max(y), abs(min(y)))
and scales by peak + 1e-6 when the true maximum is positive.  The code violates
it on the one-element sequence y = [2.0]: the single sample only updates
`highest`, `lowest` keeps its sentinel 9999999.0, the comparison
`highest > fabs(lowest)` fails, and the function returns 9999999 instead of
the claimed 2 + 1e-6. -/
theorem c3_largest_returns_sentinel :
    largestSampleIn [(2 : ℚ)] = 9999999 ∧ (9999999 : ℚ) ≠ 2 + 1/1000000 := by
  norm_num [largestSampleIn, highLowStep, List.foldl, abs]

/-- C4: for every representable 16-bit signed sample s outside 1 unit of the
extreme negative boundary, the codec round-trip toInt(toFloat(s)) = s holds
(stated through the array codec functions of the source on a one-sample
buffer). -/
theorem c4_codec_round_trip (s : ℤ) (_hlo : -32768 ≤ s) (_hhi : s ≤ 32767)
    (_hexc : -32766 ≤ s) :
    createShortIntegerSamplesFromFloatSamples (createFloatSamplesFromIntegerSamples [s]) = [s] := by
  simp only [createShortIntegerSamplesFromFloatSamples, createFloatSamplesFromIntegerSamples,
    List.map_cons, List.map_nil]
  rw [toInt_toFloat]

/-- C4 witness: the theorem applied at s = 1000. -/
theorem c4_witness :
    ((-32768 ≤ (1000 : ℤ) ∧ (1000 : ℤ) ≤ 32767 ∧ -32766 ≤ (1000 : ℤ)) ∧
      createShortIntegerSamplesFromFloatSamples
        (createFloatSamplesFromIntegerSamples [(1000 : ℤ)]) = [(1000 : ℤ)]) :=
  ⟨⟨by omega, by omega, by omega⟩,
    c4_codec_round_trip 1000 (by omega) (by omega) (by omega)⟩

/-- C5 counterexample: the byte sequence consisting of the preloaded 4-byte
window [120, 100, 97, 116] followed by the remaining stream [97] contains the
tag "data" (at offset 1), yet the scan fails to find it: the first pass
discards all four window bytes, the next pass consumes the final 97 as a
first-byte mismatch, and the loop then spins forever at end-of-stream. -/
theorem c5_counterexample :
    (tagBytes <:+: (windowBytes ⟨120, 100, 97, 116⟩ ++ [97])) ∧
    ensureSubchunk2_idIsSetProperly ⟨120, 100, 97, 116⟩ [97]
      = ScanOutcome.hang ⟨97, 100, 97, 116⟩ :=
  ⟨⟨[120], [], rfl⟩, by decide⟩

/-- C5 (amended): the scan finds the data-chunk tag and leaves the stream
positioned immediately after it provided the tag occurrence begins after the
preloaded 4-byte window and every interposed byte before it differs from the
first tag byte; a declared sub-block length above 16 makes the locator first
skip exactly the extra bytes; and a window that already equals the tag is
accepted at once.  (On a partial match the scanner also discards the
mismatching byte itself, so occurrences overlapping discarded bytes can be
missed — see the counterexample.) -/
theorem c5_scan_finds_when_unobstructed (w : SubchunkId) (sz : Nat)
    (pre junk rest : List Nat)
    (hw : w ≠ dataTag) (hj : ∀ b ∈ junk, b ≠ 100)
    (hsz : 16 < sz) (hpre : pre.length = sz - 16) :
    ensureSubchunk2_idIsSetProperly w (junk ++ tagBytes ++ rest) = .found rest ∧
    skipPastNullBytesInInputFileHeadersIfPresent sz (pre ++ (junk ++ tagBytes ++ rest))
      = junk ++ tagBytes ++ rest ∧
    ensureSubchunk2_idIsSetProperly dataTag (junk ++ tagBytes ++ rest)
      = .found (junk ++ tagBytes ++ rest) := by
  refine ⟨?_, ?_, ?_⟩
  · unfold ensureSubchunk2_idIsSetProperly
    apply scanIter_finds junk _ w rest hw hj
    simp [tagBytes]
  · unfold skipPastNullBytesInInputFileHeadersIfPresent
    rw [if_pos (by omega : sz ≠ 16), ← hpre, List.drop_left]
  · exact scanIter_dataTag _ _

/-- C5 witness: the amended theorem applied at window [0,0,0,0], sub-block
length 18 with 2 extra bytes, one interposed byte 99, and trailing stream
[7]. -/
theorem c5_witness :
    (((⟨0, 0, 0, 0⟩ : SubchunkId) ≠ dataTag ∧ (∀ b ∈ [99], b ≠ 100) ∧ 16 < 18 ∧
        [5, 5].length = 18 - 16) ∧
      (ensureSubchunk2_idIsSetProperly ⟨0, 0, 0, 0⟩ ([99] ++ tagBytes ++ [7])
          = ScanOutcome.found [7] ∧
        skipPastNullBytesInInputFileHeadersIfPresent 18 ([5, 5] ++ ([99] ++ tagBytes ++ [7]))
          = [99] ++ tagBytes ++ [7] ∧
        ensureSubchunk2_idIsSetProperly dataTag ([99] ++ tagBytes ++ [7])
          = ScanOutcome.found ([99] ++ tagBytes ++ [7]))) :=
  ⟨⟨by decide, by decide, by omega, rfl⟩,
    c5_scan_finds_when_unobstructed ⟨0, 0, 0, 0⟩ 18 [5, 5] [99] [7]
      (by decide) (by decide) (by omega) rfl⟩

/-- C6: the claim says the locator fails with MalformedContainerError when
end-of-stream is reached without finding the tag.  The code instead loops
forever: with window "LIST" and an exhausted stream, the scan state is a
fixpoint of the loop body (`onePass` is the identity at end-of-stream), so
no amount of iterations terminates the loop, and no error is ever raised. -/
theorem c6_scanner_hangs_when_tag_absent :
    (∀ fuel : Nat, scanIter fuel ⟨76, 73, 83, 84⟩ [] = ScanOutcome.hang ⟨76, 73, 83, 84⟩) ∧
    onePass ⟨76, 73, 83, 84⟩ [] = (⟨76, 73, 83, 84⟩, []) ∧
    ensureSubchunk2_idIsSetProperly ⟨76, 73, 83, 84⟩ [] = ScanOutcome.hang ⟨76, 73, 83, 84⟩ :=
  ⟨fun fuel => scanIter_nil fuel _ (by decide), onePass_nil _, by decide⟩

/-- C7: the claim says a length-0 sequence reaching renormalization raises
EmptySequenceError before any output is written.  The code has no such check:
on the empty sequence `largestSampleIn` returns the sentinel 9999999 (from the
untouched `lowest` initial value), `scaleValuesToRangeOfPlusMinus1` returns
normally, and the pipeline proceeds to write output. -/
theorem c7_empty_sequence_not_rejected :
    scaleValuesToRangeOfPlusMinus1 ([] : List ℚ) = [] ∧
    largestSampleIn ([] : List ℚ) = 9999999 := by
  norm_num [scaleValuesToRangeOfPlusMinus1, largestSampleIn, highLowStep, List.foldl, abs]

/-- C8: convolution as the program computes it (renormalization included) is
commutative for non-empty inputs; in this exact-rational model the equality is
element-for-element and exact. -/
theorem c8_convolve_comm (x h : List ℚ) (_hx : 1 ≤ x.length) (_hh : 1 ≤ h.length) :
    convolve x h = convolve h x := by
  unfold convolve
  rw [convolveRaw_comm]

/-- C8 witness: the theorem applied at x = [1], h = [2]. -/
theorem c8_witness :
    ((1 ≤ [(1 : ℚ)].length ∧ 1 ≤ [(2 : ℚ)].length) ∧
      convolve [(1 : ℚ)] [(2 : ℚ)] = convolve [(2 : ℚ)] [(1 : ℚ)]) :=
  ⟨⟨by simp, by simp⟩, c8_convolve_comm [(1 : ℚ)] [(2 : ℚ)] (by simp) (by simp)⟩

/-- C9 counterexample: the claim computes the output data length as
P × bytes-per-sample.  For an 8-bit header (bytes-per-sample = 1) and P = 1
the code writes 2 (it hard-codes `P * 2`), not 1. -/
theorem c9_counterexample :
    (writeOutputHeader
        ⟨[82, 73, 70, 70], 0, [87, 65, 86, 69], [102, 109, 116, 32], 16, 1, 1,
          44100, 44100, 1, 8, [100, 97, 116, 97], 0⟩ 1).subchunk2_size
      ≠ 1 * ((8 : ℤ) / 8) := by
  decide

/-- C9 (amended): the written output header equals the primary input header
except for exactly three fields: the data-chunk length is set to P * 2 bytes
(the code hard-codes 2 bytes per sample, the value for the assumed 16-bit
format), the overall length is set to 36 plus that data length, and the
sub-block length is forced to 16; channel count, sample rate, bits-per-sample
and all remaining fields pass through unchanged. -/
theorem c9_header_passthrough (hs : WavHeader) (P : ℤ) :
    (writeOutputHeader hs P).chunk_id = hs.chunk_id ∧
    (writeOutputHeader hs P).format = hs.format ∧
    (writeOutputHeader hs P).subchunk1_id = hs.subchunk1_id ∧
    (writeOutputHeader hs P).audio_format = hs.audio_format ∧
    (writeOutputHeader hs P).num_channels = hs.num_channels ∧
    (writeOutputHeader hs P).sample_rate = hs.sample_rate ∧
    (writeOutputHeader hs P).byte_rate = hs.byte_rate ∧
    (writeOutputHeader hs P).block_align = hs.block_align ∧
    (writeOutputHeader hs P).bits_per_sample = hs.bits_per_sample ∧
    (writeOutputHeader hs P).subchunk2_id = hs.subchunk2_id ∧
    (writeOutputHeader hs P).subchunk1_size = 16 ∧
    (writeOutputHeader hs P).subchunk2_size = P * 2 ∧
    (writeOutputHeader hs P).chunk_size = 36 + P * 2 :=
  ⟨rfl, rfl, rfl, rfl, rfl, rfl, rfl, rfl, rfl, rfl, rfl, rfl, rfl⟩

/-- C10: for N ≥ 1 and M ≥ 1 every buffer access performed by the convolution
loops is in bounds: the bounds-checked variant of the loops (which aborts on
any out-of-range zeroing write, accumulation read, or accumulation write)
succeeds and computes exactly the unchecked result. -/
theorem c10_convolve_accesses_in_bounds (x h : List ℚ)
    (hx : 1 ≤ x.length) (hh : 1 ≤ h.length) :
    convolveChecked x h = some (convolveRaw x h) := by
  unfold convolveChecked convolveRaw
  rw [zeroFillChecked_replicate (x.length + h.length - 1) 0 (x.length + h.length - 1) (by omega)]
  exact outerLoopChecked_eq h x 0 _ (by rw [List.length_replicate]; omega)

/-- C10 witness: the theorem applied at x = [1], h = [1]. -/
theorem c10_witness :
    ((1 ≤ [(1 : ℚ)].length ∧ 1 ≤ [(1 : ℚ)].length) ∧
      convolveChecked [(1 : ℚ)] [(1 : ℚ)] = some (convolveRaw [(1 : ℚ)] [(1 : ℚ)])) :=
  ⟨⟨by simp, by simp⟩, c10_convolve_accesses_in_bounds [(1 : ℚ)] [(1 : ℚ)] (by simp) (by simp)⟩
